import Mathlib

/-!
Shallow embedding of the OpenMdEditor core and proofs about its claimed
behaviour.  The embedded components are, in order:

* JavaScript string primitives (`trim`, `split(/\s+/)`) used by the editor
  store's count computation;
* the editor store (`calculateCounts`, `setMarkdown` in `src/store/aiStore.ts`);
* the Markdown rendering pipeline of `src/lib/markdownParser.ts`
  (`slugify`, the customized heading/image renderers, the DOMPurify
  sanitization step, the returned parse function);
* the draft storage service (`storageService`);
* the autosave hooks (`useDebouncedCallback`, `useAutosave`);
* the scroll synchronizer of `src/components/PreviewPane.tsx`.

JavaScript strings are modeled as `List Char`.  Every concrete string used in
a computation below is ASCII, where the JS UTF-16 length and the code-point
length agree.
-/

namespace OpenMdEditor

/-- Model of the JavaScript whitespace class `\s` (which is also the class
stripped by `String.prototype.trim`), restricted to the whitespace characters
relevant to this development: space, tab, LF, VT, FF, CR and NBSP. -/
def isJsWs (c : Char) : Bool :=
  c = ' ' || c = '\t' || c = '\n' || c = '\x0b' || c = '\x0c' || c = '\r' ||
  c = ' '

/-- Model of `String.prototype.trim`: strip leading and trailing whitespace. -/
def jsTrim (l : List Char) : List Char :=
  ((l.dropWhile isJsWs).reverse.dropWhile isJsWs).reverse

mutual

/-- Model of `String.prototype.split(/\s+/)`, scanning state "inside a piece":
`cur` holds the (reversed) piece read so far.  A whitespace character closes
the current piece and switches to separator-skipping state. -/
def jsSplitWsGo : List Char → List Char → List (List Char)
  | [], cur => [cur.reverse]
  | c :: t, cur =>
    if isJsWs c then cur.reverse :: jsSplitWsSep t else jsSplitWsGo t (c :: cur)

/-- Model of `String.prototype.split(/\s+/)`, scanning state "inside a
separator run": further whitespace extends the separator; end of input after a
separator yields a trailing empty piece, as JS `split` does. -/
def jsSplitWsSep : List Char → List (List Char)
  | [] => [[]]
  | c :: t => if isJsWs c then jsSplitWsSep t else jsSplitWsGo t [c]

end

/-- Model of `String.prototype.split(/\s+/)`: the pieces of the string between
maximal whitespace runs.  As in JS, a leading (resp. trailing) separator
produces a leading (resp. trailing) empty piece, and splitting the empty
string yields `[""]`. -/
def jsSplitWs (l : List Char) : List (List Char) :=
  jsSplitWsGo l []

/-- Word counter following the specification's words: scans the string and
counts the maximal non-empty runs of non-whitespace characters.  `inTok`
records whether the scanner currently stands inside such a run. -/
def wsTokensGo : List Char → Bool → Nat
  | [], _ => 0
  | c :: t, inTok =>
    if isJsWs c then wsTokensGo t false
    else (if inTok then 0 else 1) + wsTokensGo t true

/-- Specification-side word count: the number of non-empty
whitespace-delimited tokens of `l`. -/
def wsTokens (l : List Char) : Nat :=
  wsTokensGo l false

/-- Embeds `calculateCounts` from `src/store/aiStore.ts`:
`text.trim().split(/\s+/).filter(Boolean)` word count together with the raw
`length` character count.  (The `text || ''` guard is the identity on
strings.) -/
def calculateCounts (text : List Char) : Nat × Nat :=
  let words := (jsSplitWs (jsTrim text)).filter (fun t => !t.isEmpty)
  (words.length, text.length)

/-- The fields of the Zustand editor store (`useEditorStore` in
`src/store/aiStore.ts`) touched by `setMarkdown`; `set` merges the update
into the store, leaving every other field unchanged. -/
structure EditorStoreState where
  markdown : List Char
  isSaved : Bool
  wordCount : Nat
  charCount : Nat
  deriving Repr, DecidableEq

/-- Embeds the `setMarkdown` action of the editor store. -/
def setMarkdown (value : List Char) (s : EditorStoreState) : EditorStoreState :=
  let c := calculateCounts value
  { s with markdown := value, isSaved := false, wordCount := c.1,
           charCount := c.2 }

/-- Filtering the empty pieces out of a JS whitespace split counts exactly the
maximal non-whitespace runs (joint statement for both scanning states). -/
theorem jsSplitWs_filter_count (l : List Char) :
    (∀ cur, ((jsSplitWsGo l cur).filter (fun t => !t.isEmpty)).length
      = (if cur.isEmpty then 0 else 1) + wsTokensGo l !cur.isEmpty) ∧
    ((jsSplitWsSep l).filter (fun t => !t.isEmpty)).length
      = wsTokensGo l false := by
  induction l with
  | nil =>
    constructor
    · intro cur
      cases cur <;> simp [jsSplitWsGo, jsSplitWsSep, wsTokensGo]
    · simp [jsSplitWsSep, wsTokensGo]
  | cons c t ih =>
    constructor
    · intro cur
      by_cases hw : isJsWs c
      · cases cur <;>
          simp [jsSplitWsGo, wsTokensGo, hw, ih.2, Nat.add_comm]
      · have h1 := ih.1 (c :: cur)
        cases cur <;>
          simp_all [jsSplitWsGo, wsTokensGo, hw]
    · by_cases hw : isJsWs c
      · simp [jsSplitWsSep, wsTokensGo, hw, ih.2]
      · have h1 := ih.1 [c]
        simp_all [jsSplitWsSep, wsTokensGo, hw]

/-- The word count computed by `calculateCounts` is the number of non-empty
whitespace-delimited tokens of the trimmed text. -/
theorem calculateCounts_wordCount (text : List Char) :
    (calculateCounts text).1 = wsTokens (jsTrim text) := by
  have h := (jsSplitWs_filter_count (jsTrim text)).1 []
  simpa [calculateCounts, jsSplitWs, wsTokens] using h

/-- C9: for every string `v`, `setMarkdown v` leaves the store with
`markdown = v`, `isSaved = false`, `charCount` the raw length of `v` and
`wordCount` the number of non-empty whitespace-delimited tokens of the
trimmed `v`; in particular `"a b  c"` yields word count 3 and char count 6,
and the empty string yields 0 and 0. -/
theorem setMarkdown_spec :
    ∀ (s : EditorStoreState) (v : List Char),
      (setMarkdown v s).markdown = v ∧
      (setMarkdown v s).isSaved = false ∧
      (setMarkdown v s).charCount = v.length ∧
      (setMarkdown v s).wordCount = wsTokens (jsTrim v) ∧
      (setMarkdown "a b  c".data s).wordCount = 3 ∧
      (setMarkdown "a b  c".data s).charCount = 6 ∧
      (setMarkdown [] s).wordCount = 0 ∧
      (setMarkdown [] s).charCount = 0 := by
  intro s v
  refine ⟨rfl, rfl, rfl, ?_, ?_, rfl, ?_, rfl⟩
  · exact calculateCounts_wordCount v
  · show (calculateCounts "a b  c".data).1 = 3
    decide
  · show (calculateCounts ([] : List Char)).1 = 0
    decide

/-!
Association lists model plain JavaScript objects used as string-keyed maps
(`Record<string, Draft>` in `storageService`, `Record<string, number>` for
the heading-id counters): lookup `m[k]`, assignment `m[k] = v` (replace in
place, or append a new binding) and `delete m[k]`.
-/

variable {α : Type}

/-- Object property read `m[k]` (as `Option`). -/
def alGet : List (String × α) → String → Option α
  | [], _ => none
  | (k', v) :: t, k => if k' = k then some v else alGet t k

/-- Object property write `m[k] = v`: replaces the binding in place when the
key is present, appends a new binding otherwise. -/
def alSet : List (String × α) → String → α → List (String × α)
  | [], k, v => [(k, v)]
  | (k', w) :: t, k, v =>
    if k' = k then (k', v) :: t else (k', w) :: alSet t k v

/-- Object property removal `delete m[k]`. -/
def alErase : List (String × α) → String → List (String × α)
  | [], _ => []
  | (k', w) :: t, k => if k' = k then t else (k', w) :: alErase t k

theorem alGet_alSet_self (m : List (String × α)) (k : String) (v : α) :
    alGet (alSet m k v) k = some v := by
  induction m with
  | nil => simp [alGet, alSet]
  | cons h t ih =>
    obtain ⟨k', w⟩ := h
    by_cases hk : k' = k <;> simp [alGet, alSet, hk, ih]

theorem alGet_alSet_ne (m : List (String × α)) (k k' : String) (v : α)
    (h : k' ≠ k) : alGet (alSet m k v) k' = alGet m k' := by
  induction m with
  | nil =>
    have hne : k ≠ k' := fun hh => h hh.symm
    simp [alGet, alSet, hne]
  | cons hd t ih =>
    obtain ⟨k₀, w⟩ := hd
    by_cases hk : k₀ = k
    · subst hk
      have hne : k₀ ≠ k' := fun hh => h hh.symm
      simp [alGet, alSet, hne]
    · simp [alGet, alSet, hk, ih]

theorem mem_alKeys_alSet (m : List (String × α)) (k : String) (v : α)
    (x : String) (h : x ∈ (alSet m k v).map Prod.fst) :
    x = k ∨ x ∈ m.map Prod.fst := by
  induction m with
  | nil => simpa [alSet] using h
  | cons hd t ih =>
    obtain ⟨k₀, w⟩ := hd
    by_cases hk : k₀ = k
    · simp_all [alSet]
    · simp only [alSet, hk, if_false, List.map_cons, List.mem_cons] at h
      rcases h with h | h
      · simp [h]
      · rcases ih h with h' | h' <;> simp [h']

theorem alSet_nodup (m : List (String × α)) (k : String) (v : α)
    (h : (m.map Prod.fst).Nodup) : ((alSet m k v).map Prod.fst).Nodup := by
  induction m with
  | nil => simp [alSet]
  | cons hd t ih =>
    obtain ⟨k₀, w⟩ := hd
    simp only [List.map_cons, List.nodup_cons] at h
    by_cases hk : k₀ = k
    · simp only [alSet, hk, if_true, List.map_cons, List.nodup_cons]
      exact ⟨hk ▸ h.1, h.2⟩
    · simp only [alSet, hk, if_false, List.map_cons, List.nodup_cons]
      refine ⟨fun hmem => ?_, ih h.2⟩
      rcases mem_alKeys_alSet t k v k₀ hmem with h' | h'
      · exact hk h'
      · exact h.1 h'

/-!
Draft storage (`storageService`).  The two localStorage entries
(`ai_markdown_editor_drafts`, parsed as a `Record<string, Draft>`, and
`ai_markdown_editor_current_draft_id`) are modeled as one `StorageState`
holding the parsed, well-formed contents.  The `try`/`catch` wrappers guard
against runtime storage failures (quota, corrupt JSON) which lie outside this
pure model; the functions below embed the success paths, with `Option`
results exactly as the source returns `null`.
-/

/-- The `Draft` record of `src/types/editor.ts` as persisted by
`storageService`. -/
structure Draft where
  id : String
  content : String
  lastModified : String
  fileName : Option String
  deriving Repr, DecidableEq

/-- The persisted state: the drafts mapping and the current-draft pointer. -/
structure StorageState where
  drafts : List (String × Draft)
  currentId : Option String
  deriving Repr, DecidableEq

/-- The id minted by `saveDraft` when no (truthy) `existingId` is supplied:
```file_${fileName}_${timestamp}` `` when a truthy `fileName` is present,
`` `draft_${timestamp}` `` otherwise. -/
def mintDraftId (fileName : Option String) (timestamp : String) : String :=
  match fileName with
  | some f => if f = "" then "draft_" ++ timestamp else "file_" ++ f ++ "_" ++ timestamp
  | none => "draft_" ++ timestamp

/-- Embeds `storageService.saveDraft`.  `timestamp` stands for
`new Date().toISOString()`, passed explicitly.  JS truthiness of
`existingId || (fileName ? ... : ...)` is modeled by the empty-string
checks. -/
def saveDraft (st : StorageState) (content : String) (fileName : Option String)
    (existingId : Option String) (timestamp : String) :
    StorageState × Option String :=
  let id :=
    match existingId with
    | some e => if e = "" then mintDraftId fileName timestamp else e
    | none => mintDraftId fileName timestamp
  let draft : Draft := ⟨id, content, timestamp, fileName⟩
  (⟨alSet st.drafts id draft, some id⟩, some id)

/-- Embeds `storageService.loadDraft`: look the id up; when found, mark it
current and return it, otherwise return `null` leaving the state alone. -/
def loadDraft (st : StorageState) (id : String) : StorageState × Option Draft :=
  match alGet st.drafts id with
  | some d => ({ st with currentId := some id }, some d)
  | none => (st, none)

/-- Embeds `storageService.loadLastDraft`: resolve the current-draft pointer
(`if (!currentId) return null` — absent or empty is falsy) via `loadDraft`. -/
def loadLastDraft (st : StorageState) : StorageState × Option Draft :=
  match st.currentId with
  | none => (st, none)
  | some cid => if cid = "" then (st, none) else loadDraft st cid

/-- Embeds `storageService.deleteDraft`: `false` when the id is unknown;
otherwise remove the draft and, when the deleted id equals the stored
current-draft pointer, clear the pointer. -/
def deleteDraft (st : StorageState) (id : String) : StorageState × Bool :=
  match alGet st.drafts id with
  | none => (st, false)
  | some _ =>
    let st' : StorageState := { st with drafts := alErase st.drafts id }
    if st'.currentId = some id then ({ st' with currentId := none }, true)
    else (st', true)

/-- Embeds `storageService.getCurrentDraftId`. -/
def getCurrentDraftId (st : StorageState) : Option String :=
  st.currentId

/-- The id under which `saveDraft` actually stores the draft: a given
(truthy) `existingId` verbatim — whether or not it already names a draft —
and a minted id only when `existingId` is absent. -/
def savedId (existingId fileName : Option String) (timestamp : String) : String :=
  match existingId with
  | some e => e
  | none => mintDraftId fileName timestamp

/-- C3 counterexample: on an empty store, `saveDraft` with the nonexistent
`existingId` "ghost" returns "ghost" itself, not a freshly minted id of the
form `draft_{isoTimestamp}` as the claim states for an `existingId` that does
not exist. -/
theorem saveDraft_nonexistent_id_counterexample :
    (saveDraft ⟨[], none⟩ "X" none (some "ghost")
        "2024-01-01T00:00:00.000Z").2 = some "ghost" ∧
    (saveDraft ⟨[], none⟩ "X" none (some "ghost")
        "2024-01-01T00:00:00.000Z").2
      ≠ some "draft_2024-01-01T00:00:00.000Z" := by
  decide

/-- C3 (amended): when a non-empty `existingId` is given, the draft is stored
under `existingId` itself — overwriting in place when present, inserting a new
entry otherwise — and `existingId` is returned; only when `existingId` is
absent is a fresh id minted, of the form `draft_{isoTimestamp}` without a
filename and `file_{fileName}_{isoTimestamp}` with one.  In every success case
bindings for other ids are untouched, at most one draft exists per id, and
the returned id is stored as the current draft id. -/
theorem saveDraft_amended_spec (st : StorageState) (content : String)
    (fileName existingId : Option String) (timestamp : String)
    (hnodup : (st.drafts.map Prod.fst).Nodup)
    (hid : ∀ e, existingId = some e → e ≠ "") :
    (saveDraft st content fileName existingId timestamp).2
      = some (savedId existingId fileName timestamp) ∧
    getCurrentDraftId (saveDraft st content fileName existingId timestamp).1
      = some (savedId existingId fileName timestamp) ∧
    alGet (saveDraft st content fileName existingId timestamp).1.drafts
        (savedId existingId fileName timestamp)
      = some ⟨savedId existingId fileName timestamp, content, timestamp, fileName⟩ ∧
    (∀ k, k ≠ savedId existingId fileName timestamp →
      alGet (saveDraft st content fileName existingId timestamp).1.drafts k
        = alGet st.drafts k) ∧
    ((saveDraft st content fileName existingId timestamp).1.drafts.map
        Prod.fst).Nodup := by
  cases existingId with
  | none =>
    simp only [saveDraft, savedId, getCurrentDraftId]
    exact ⟨trivial, trivial, alGet_alSet_self st.drafts _ _,
      fun k hk => alGet_alSet_ne st.drafts _ k _ hk,
      alSet_nodup st.drafts _ _ hnodup⟩
  | some e =>
    have he : ¬(e = "") := hid e rfl
    simp only [saveDraft, savedId, getCurrentDraftId, if_neg he]
    exact ⟨trivial, trivial, alGet_alSet_self st.drafts _ _,
      fun k hk => alGet_alSet_ne st.drafts _ k _ hk,
      alSet_nodup st.drafts _ _ hnodup⟩

/-- Witness for the amended C3 theorem at a concrete input. -/
theorem saveDraft_amended_spec_witness :
    (saveDraft ⟨[], none⟩ "hello" (some "f.md") none
        "2024-01-01T00:00:00.000Z").2
      = some "file_f.md_2024-01-01T00:00:00.000Z" := by
  have h := saveDraft_amended_spec ⟨[], none⟩ "hello" (some "f.md") none
    "2024-01-01T00:00:00.000Z" (by simp) (fun e he => by cases he)
  simpa [savedId, mintDraftId] using h.1

/-- C4: after every successful `saveDraft` the current draft id equals the id
`saveDraft` returned; `deleteDraft` of an unknown id returns `false` and
leaves the store unchanged; and deleting the draft whose id equals the
current pointer clears the pointer, so a subsequent `loadLastDraft` returns
`null`. -/
theorem currentDraftPointer_spec :
    (∀ (st : StorageState) content fileName existingId timestamp,
      getCurrentDraftId
          (saveDraft st content fileName existingId timestamp).1
        = (saveDraft st content fileName existingId timestamp).2) ∧
    (∀ (st : StorageState) id, alGet st.drafts id = none →
      deleteDraft st id = (st, false)) ∧
    (∀ (st : StorageState) id d, st.currentId = some id →
      alGet st.drafts id = some d →
      (deleteDraft st id).2 = true ∧
      getCurrentDraftId (deleteDraft st id).1 = none ∧
      loadLastDraft (deleteDraft st id).1 = ((deleteDraft st id).1, none)) := by
  refine ⟨?_, ?_, ?_⟩
  · intro st content fileName existingId timestamp
    rfl
  · intro st id h
    simp [deleteDraft, h]
  · intro st id d hcur hget
    simp [deleteDraft, hget, hcur, getCurrentDraftId, loadLastDraft]

/-- Witness for C4 at concrete inputs: deleting an unknown id is a no-op
returning false, and deleting the current draft clears the pointer. -/
theorem currentDraftPointer_spec_witness :
    deleteDraft ⟨[("a", ⟨"a", "X", "t0", none⟩)], some "a"⟩ "b"
        = (⟨[("a", ⟨"a", "X", "t0", none⟩)], some "a"⟩, false) ∧
    getCurrentDraftId
        (deleteDraft ⟨[("a", ⟨"a", "X", "t0", none⟩)], some "a"⟩ "a").1
      = none := by
  constructor
  · exact currentDraftPointer_spec.2.1 _ "b" (by decide)
  · exact (currentDraftPointer_spec.2.2 _ "a" ⟨"a", "X", "t0", none⟩ rfl
      (by decide)).2.1

/-- C10: for every id not present in the stored drafts mapping, `loadDraft`
returns `null` and leaves the entire persisted state unchanged — the drafts
mapping is not modified and the current-draft pointer keeps its prior
value. -/
theorem loadDraft_missing_spec (st : StorageState) (id : String)
    (h : alGet st.drafts id = none) :
    loadDraft st id = (st, none) := by
  simp [loadDraft, h]

/-- Witness for C10 at a concrete input. -/
theorem loadDraft_missing_spec_witness :
    loadDraft ⟨[("a", ⟨"a", "X", "t0", none⟩)], some "a"⟩ "b"
      = (⟨[("a", ⟨"a", "X", "t0", none⟩)], some "a"⟩, none) :=
  loadDraft_missing_spec _ "b" (by decide)

/-!
Markdown rendering pipeline (`src/lib/markdownParser.ts`).  The regex-based
string transformations of `slugify` are embedded as character-list scanners;
the run-collapsing replacements (`/\s+/g`, `/[-]+/g`) use the two-state scanner
pattern so that every definition is structurally recursive and evaluates by
`rfl`/`decide`.  The Unicode classes `\p{L}\p{N}\p{M}` of the slug regex are
modeled by their ASCII restriction (`Char.isAlpha`/`Char.isDigit`); every
concrete heading below is ASCII, where the two coincide.
-/

/-- Model of `text.replace(/<[^>]*>/g, '')`: drop each `<`...`>` group; a `<`
with no later `>` stays (the regex needs the closing `>` to match).  The fuel
argument (instantiated with the list length, which the scan never exhausts
since every step consumes at least one character) makes the definition
structurally recursive. -/
def stripTagsGo : Nat → List Char → List Char
  | _, [] => []
  | 0, l => l
  | fuel + 1, c :: rest =>
    if c = '<' && rest.contains '>' then
      stripTagsGo fuel ((rest.dropWhile (fun x => !(x = '>'))).tail)
    else c :: stripTagsGo fuel rest

/-- Model of `text.replace(/<[^>]*>/g, '')`. -/
def stripTags (l : List Char) : List Char :=
  stripTagsGo l.length l

mutual

/-- Model of `replace(/\s+/g, '-')`, outside a whitespace run: a whitespace
character emits one hyphen and enters the run. -/
def wsRunsToHyphenGo : List Char → List Char
  | [] => []
  | c :: t =>
    if isJsWs c then '-' :: wsRunsToHyphenSep t else c :: wsRunsToHyphenGo t

/-- Model of `replace(/\s+/g, '-')`, inside a whitespace run: further
whitespace extends the (already replaced) run. -/
def wsRunsToHyphenSep : List Char → List Char
  | [] => []
  | c :: t =>
    if isJsWs c then wsRunsToHyphenSep t else c :: wsRunsToHyphenGo t

end

mutual

/-- Model of `replace(/[-]+/g, '-')`, outside a hyphen run. -/
def collapseHyphensGo : List Char → List Char
  | [] => []
  | c :: t =>
    if c = '-' then '-' :: collapseHyphensSep t else c :: collapseHyphensGo t

/-- Model of `replace(/[-]+/g, '-')`, inside a hyphen run. -/
def collapseHyphensSep : List Char → List Char
  | [] => []
  | c :: t =>
    if c = '-' then collapseHyphensSep t else c :: collapseHyphensGo t

end

/-- Model of `replace(/^[-]+|[-]+$/g, '')`: strip hyphens at both ends. -/
def trimHyphens (l : List Char) : List Char :=
  ((l.dropWhile (fun c => c = '-')).reverse.dropWhile (fun c => c = '-')).reverse

/-- The characters kept by `replace(/[^\p{L}\p{N}\p{M}-]+/gu, '')` (ASCII
restriction of the Unicode classes). -/
def isSlugChar (c : Char) : Bool :=
  c.isAlpha || c.isDigit || c = '-'

/-- Embeds `slugify` from `src/lib/markdownParser.ts`: strip tags, trim,
lowercase, whitespace runs to hyphens, drop disallowed characters, collapse
hyphen runs, trim hyphens. -/
def slugify (text : List Char) : List Char :=
  let plainText := jsTrim (stripTags text)
  trimHyphens (collapseHyphensGo
    ((wsRunsToHyphenGo (plainText.map Char.toLower)).filter isSlugChar))

/-- The `HeadingItem` of `src/types/editor.ts` collected for the TOC. -/
structure HeadingItem where
  id : String
  text : String
  level : Nat
  deriving Repr, DecidableEq

/-- Embeds the body of the overridden `renderer.heading`: slug generation
with the `headingIdCounts` duplicate counter (`counts[slug]++` and suffix
`-{counts[slug]}` when the base slug was seen, counter initialized to 0
otherwise), producing the updated counters and the collected heading item
(whose `id` is also the emitted `id` attribute). -/
def headingStep (counts : List (String × Nat)) (text raw : String)
    (level : Nat) : List (String × Nat) × HeadingItem :=
  let plainText : List Char := jsTrim (stripTags text.data)
  let slug0 : String :=
    ⟨slugify (if plainText.isEmpty then ("heading-" ++ toString level).data
              else plainText)⟩
  let itemText : String := if plainText.isEmpty then raw else ⟨plainText⟩
  match alGet counts slug0 with
  | some n =>
    (alSet counts slug0 (n + 1),
     ⟨slug0 ++ "-" ++ toString (n + 1), itemText, level⟩)
  | none =>
    (alSet counts slug0 0, ⟨slug0, itemText, level⟩)

/-- HTML node trees.  The renderers of `markdownParser.ts` emit template
strings; they are embedded at the node level (one constructor application per
emitted tag), which is also the representation on which the `DOMPurify`
parse–sanitize–serialize round trip is modeled. -/
inductive HNode where
  | text (s : String)
  | elem (tag : String) (attrs : List (String × String)) (children : List HNode)

/-- The HTML metacharacters; strings free of them pass through HTML parsing
and sanitization verbatim. -/
def isHtmlSpecial (c : Char) : Bool :=
  c = '<' || c = '>' || c = '&' || c = '"' || c = '\''

/-- Model of `DOMPurify.sanitize` applied to a bare string, as the image and
link renderers do for `href`, `title` and the alt text: on strings without
HTML-special characters the sanitizer returns the string unchanged (the only
case the theorems below exercise); markup-bearing strings are conservatively
modeled as emptied. -/
def sanitizeText (s : String) : String :=
  if s.data.all (fun c => !isHtmlSpecial c) then s else ""

/-- Embeds the overridden `renderer.image`: an `img` element with sanitized
`src`/`alt`/`title`, the fixed class list and lazy loading. -/
def renderImage (href title : Option String) (text : String) : HNode :=
  .elem "img"
    [("src", sanitizeText (href.getD "")),
     ("alt", sanitizeText text),
     ("title", match title with | some t => sanitizeText t | none => ""),
     ("class", "max-w-full h-auto rounded my-2"),
     ("loading", "lazy")] []

/-- Tags permitted by the `DOMPurify.sanitize` call's configuration
(`USE_PROFILES: { html: true }`): the standard HTML profile, modeled by the
subset relevant to this pipeline.  `script` is not in the profile. -/
def allowedTags : List String :=
  ["a", "p", "br", "hr", "h1", "h2", "h3", "h4", "h5", "h6", "ul", "ol",
   "li", "blockquote", "pre", "code", "em", "strong", "del", "table",
   "thead", "tbody", "tr", "th", "td", "div", "span", "img"]

/-- Tags whose entire content DOMPurify drops when removing the element
(rather than splicing the children in place). -/
def forbidContentsTags : List String :=
  ["script", "style", "title", "textarea", "noscript"]

/-- Attributes permitted by the call's configuration: the html profile's
attributes relevant here together with `ADD_ATTR: ['id', 'target', 'rel',
'loading']`. -/
def allowedAttrs : List String :=
  ["href", "src", "alt", "title", "class", "id", "target", "rel", "loading"]

/-- Elements on which DOMPurify accepts `data:` URIs by default. -/
def dataUriTags : List String :=
  ["audio", "video", "img", "source", "image", "track"]

def isBase64Char (c : Char) : Bool :=
  c.isAlpha || c.isDigit || c = '+' || c = '/' || c = '='

/-- Model of DOMPurify's default `data:` URI acceptance: a base64 `data:`
URI with an image MIME type. -/
def isDataImageUri (s : String) : Bool :=
  ["png", "gif", "jpeg", "jpg", "webp", "bmp", "tiff"].any (fun m =>
    ("data:image/" ++ m ++ ";base64,").data.isPrefixOf s.data &&
    (s.data.drop ("data:image/" ++ m ++ ";base64,").data.length).all
      isBase64Char)

/-- Model of DOMPurify's URI validity check for `href`/`src` values:
`http(s):` URIs, scheme-less (relative/fragment) URIs, and `data:` image
URIs on the elements of `dataUriTags`. -/
def uriOk (tag value : String) : Bool :=
  "http://".data.isPrefixOf value.data ||
  "https://".data.isPrefixOf value.data ||
  !value.data.contains ':' ||
  (dataUriTags.contains tag && isDataImageUri value)

/-- Attribute filtering of the modeled `DOMPurify.sanitize` call: keep an
attribute when its name is allowed and, for URI attributes, its value passes
the URI check. -/
def keepAttrs (tag : String) (attrs : List (String × String)) :
    List (String × String) :=
  attrs.filter (fun a =>
    allowedAttrs.contains a.1 &&
    (!(a.1 = "src" || a.1 = "href") || uriOk tag a.2))

mutual

/-- Model of the `DOMPurify.sanitize(rawHtml, ...)` call on one node: an
allowed element keeps its (filtered) attributes and sanitized children; a
forbidden-contents element disappears with its subtree; any other unknown
element is dropped but its sanitized children are kept in place. -/
def sanitizeNode : HNode → List HNode
  | .text s => [.text s]
  | .elem tag attrs children =>
    if allowedTags.contains tag then
      [.elem tag (keepAttrs tag attrs) (sanitizeNodesList children)]
    else if forbidContentsTags.contains tag then []
    else sanitizeNodesList children

/-- Model of the `DOMPurify.sanitize(rawHtml, ...)` call on a node list. -/
def sanitizeNodesList : List HNode → List HNode
  | [] => []
  | n :: rest => sanitizeNode n ++ sanitizeNodesList rest

end

def attrsToString (attrs : List (String × String)) : String :=
  attrs.foldl (fun acc a => acc ++ " " ++ a.1 ++ "=\"" ++ a.2 ++ "\"") ""

mutual

/-- Serialization of one node back to an HTML string. -/
def serializeNode : HNode → String
  | .text s => s
  | .elem tag attrs children =>
    "<" ++ tag ++ attrsToString attrs ++ ">" ++ serializeNodes children ++
    "</" ++ tag ++ ">"

/-- Serialization of a node list back to an HTML string. -/
def serializeNodes : List HNode → String
  | [] => ""
  | n :: rest => serializeNode n ++ serializeNodes rest

end

/-- The token stream produced by the internal `marked.parse` lexing of the
input, restricted to the constructs the claims exercise: headings, paragraph
text, inline images (which marked wraps in a paragraph) and raw embedded
HTML, which marked passes through to the output for DOMPurify to handle. -/
inductive MdToken where
  | heading (text raw : String) (level : Nat)
  | para (text : String)
  | image (href title : Option String) (text : String)
  | htmlRaw (nodes : List HNode)

/-- The document renderer: maps each token through the corresponding
customized renderer, threading the `headingIdCounts` state and collecting
the `headings` array in document order. -/
def renderDoc (counts : List (String × Nat)) :
    List MdToken → List HeadingItem × List HNode
  | [] => ([], [])
  | .heading text raw level :: rest =>
    let s := headingStep counts text raw level
    let r := renderDoc s.1 rest
    (s.2 :: r.1,
     .elem ("h" ++ toString level) [("id", s.2.id)] [.text text] :: r.2)
  | .para text :: rest =>
    let r := renderDoc counts rest
    (r.1, .elem "p" [] [.text text] :: r.2)
  | .image href title text :: rest =>
    let r := renderDoc counts rest
    (r.1, .elem "p" [] [renderImage href title text] :: r.2)
  | .htmlRaw nodes :: rest =>
    let r := renderDoc counts rest
    (r.1, nodes ++ r.2)

/-- The sanitized document: the rendered nodes after the modeled
`DOMPurify.sanitize` call, starting (as each call to the parse function does)
from freshly reset heading state. -/
def sanitizedDoc (toks : List MdToken) : List HNode :=
  sanitizeNodesList (renderDoc [] toks).2

/-- The result record of the parse function. -/
structure ParseResult where
  html : String
  headings : List HeadingItem
  deriving Repr, DecidableEq

/-- Embeds the parse function returned by `configureMarkdownParser`.  The
fallible internal `marked.parse` call is passed explicitly as an `Except`
(its token stream on success, the raised exception otherwise); the `catch`
branch returns the fixed inline error fragment and an empty heading list.
`headings` and `headingIdCounts` are reset at the start of every call, which
the model reflects by rendering from empty state. -/
def parseMarkdown (inner : Except String (List MdToken)) : ParseResult :=
  match inner with
  | .error _ =>
    { html := "<p class=\"text-destructive\">エラー: マークダウンの変換に失敗しました</p>",
      headings := [] }
  | .ok toks =>
    { html := serializeNodes (sanitizedDoc toks),
      headings := (renderDoc [] toks).1 }

mutual

/-- Whether an element named `t` occurs anywhere in the node. -/
def nodeHasTag (t : String) : HNode → Bool
  | .text _ => false
  | .elem tag _ children => tag = t || nodesHaveTag t children

/-- Whether an element named `t` occurs anywhere in the node list. -/
def nodesHaveTag (t : String) : List HNode → Bool
  | [] => false
  | n :: rest => nodeHasTag t n || nodesHaveTag t rest

end

mutual

/-- Whether an `img` element carrying exactly the attributes `src` and `alt`
occurs anywhere in the node. -/
def nodeHasImg (src alt : String) : HNode → Bool
  | .text _ => false
  | .elem tag attrs children =>
    (tag = "img" && attrs.contains ("src", src) && attrs.contains ("alt", alt))
      || nodesHaveImg src alt children

/-- Whether such an `img` element occurs anywhere in the node list. -/
def nodesHaveImg (src alt : String) : List HNode → Bool
  | [] => false
  | n :: rest => nodeHasImg src alt n || nodesHaveImg src alt rest

end

theorem nodesHaveTag_append (t : String) (a b : List HNode) :
    nodesHaveTag t (a ++ b) = (nodesHaveTag t a || nodesHaveTag t b) := by
  induction a with
  | nil => simp [nodesHaveTag]
  | cons n rest ih => simp [nodesHaveTag, ih, Bool.or_assoc]

theorem nodesHaveImg_append (src alt : String) (a b : List HNode) :
    nodesHaveImg src alt (a ++ b)
      = (nodesHaveImg src alt a || nodesHaveImg src alt b) := by
  induction a with
  | nil => simp [nodesHaveImg]
  | cons n rest ih => simp [nodesHaveImg, ih, Bool.or_assoc]

/-- No `script` element survives sanitization, at any nesting depth (joint
statement for a node and a node list, by strong induction on size). -/
theorem sanitize_noScript_aux (k : Nat) :
    (∀ n : HNode, sizeOf n ≤ k →
      nodesHaveTag "script" (sanitizeNode n) = false) ∧
    (∀ ns : List HNode, sizeOf ns ≤ k →
      nodesHaveTag "script" (sanitizeNodesList ns) = false) := by
  induction k with
  | zero =>
    constructor
    · intro n hn
      cases n <;> simp at hn
    · intro ns hns
      cases ns <;> simp at hns
  | succ k ih =>
    constructor
    · intro n hn
      cases n with
      | text s => simp [sanitizeNode, nodesHaveTag, nodeHasTag]
      | elem tag attrs children =>
        have hc : sizeOf children ≤ k := by simp at hn; omega
        by_cases h1 : tag ∈ allowedTags
        · have htag : ¬(tag = "script") := by
            intro he
            subst he
            exact absurd h1 (by decide)
          simp [sanitizeNode, h1, nodesHaveTag, nodeHasTag, htag,
            ih.2 children hc]
        · by_cases h2 : tag ∈ forbidContentsTags
          · simp [sanitizeNode, h1, h2, nodesHaveTag]
          · simp [sanitizeNode, h1, h2, ih.2 children hc]
    · intro ns hns
      cases ns with
      | nil => simp [sanitizeNodesList, nodesHaveTag]
      | cons n rest =>
        have h1 : sizeOf n ≤ k := by simp at hns; omega
        have h2 : sizeOf rest ≤ k := by simp at hns; omega
        simp [sanitizeNodesList, nodesHaveTag_append, ih.1 n h1, ih.2 rest h2]

theorem sanitizeNodesList_append (a b : List HNode) :
    sanitizeNodesList (a ++ b)
      = sanitizeNodesList a ++ sanitizeNodesList b := by
  induction a with
  | nil => simp [sanitizeNodesList]
  | cons n rest ih => simp [sanitizeNodesList, ih]

/-- A rendered document containing a Markdown image with clean `src`/alt
keeps that image (with both attributes verbatim) through sanitization,
whatever the heading-counter state. -/
theorem renderDoc_img_kept (toks : List MdToken) (counts : List (String × Nat))
    (href : String) (title : Option String) (text : String)
    (hmem : MdToken.image (some href) title text ∈ toks)
    (huri : isDataImageUri href = true)
    (hhref : href.data.all (fun c => !isHtmlSpecial c) = true)
    (htext : text.data.all (fun c => !isHtmlSpecial c) = true) :
    nodesHaveImg href text
      (sanitizeNodesList (renderDoc counts toks).2) = true := by
  induction toks generalizing counts with
  | nil => cases hmem
  | cons tok rest ih =>
    rcases List.mem_cons.mp hmem with he | hm
    · subst he
      simp [renderDoc, sanitizeNodesList, sanitizeNode, keepAttrs,
        renderImage, sanitizeText, hhref, htext, nodesHaveImg_append,
        nodesHaveImg, nodeHasImg, uriOk, huri, allowedTags, allowedAttrs,
        dataUriTags]
    · cases tok with
      | heading a b lvl =>
        simp only [renderDoc, sanitizeNodesList, nodesHaveImg_append,
          Bool.or_eq_true]
        exact Or.inr (ih _ hm)
      | para a =>
        simp only [renderDoc, sanitizeNodesList, nodesHaveImg_append,
          Bool.or_eq_true]
        exact Or.inr (ih _ hm)
      | image a b c =>
        simp only [renderDoc, sanitizeNodesList, nodesHaveImg_append,
          Bool.or_eq_true]
        exact Or.inr (ih _ hm)
      | htmlRaw nodes =>
        simp only [renderDoc, sanitizeNodesList_append, nodesHaveImg_append,
          Bool.or_eq_true]
        exact Or.inr (ih _ hm)

/-- C1: evaluation at the failing input.  For the document whose three
headings are "a-1", "a" and "a", the assigned ids are "a-1", "a" and "a-1":
the suffixed disambiguation of the duplicated slug "a" collides with the
literal slug "a-1" of the first heading, so the heading list of a single
`parseMarkdown` call carries a duplicate id, contradicting pairwise
distinctness. -/
theorem headingIds_duplicate_counterexample :
    ((parseMarkdown (Except.ok
        [.heading "a-1" "a-1" 1, .heading "a" "a" 1,
         .heading "a" "a" 1])).headings.map HeadingItem.id)
      = ["a-1", "a", "a-1"] ∧
    ¬ ((parseMarkdown (Except.ok
        [.heading "a-1" "a-1" 1, .heading "a" "a" 1,
         .heading "a" "a" 1])).headings.map HeadingItem.id).Nodup := by
  decide

/-- C2: sanitization allow-list.  First, no document's sanitized output
contains a `script` element, whatever the input tokens (including raw
embedded HTML).  Second, every document containing a Markdown image whose
source is a `data:image/...;base64` URI keeps that image through rendering
and sanitization with its `src` attribute intact and its alt text
preserved. -/
theorem sanitize_allowlist_spec :
    (∀ toks : List MdToken,
      nodesHaveTag "script" (sanitizedDoc toks) = false) ∧
    (∀ (toks : List MdToken) (href : String) (title : Option String)
        (text : String),
      MdToken.image (some href) title text ∈ toks →
      isDataImageUri href = true →
      href.data.all (fun c => !isHtmlSpecial c) = true →
      text.data.all (fun c => !isHtmlSpecial c) = true →
      nodesHaveImg href text (sanitizedDoc toks) = true) := by
  constructor
  · intro toks
    exact (sanitize_noScript_aux (sizeOf (renderDoc [] toks).2)).2 _ le_rfl
  · intro toks href title text hmem huri hhref htext
    exact renderDoc_img_kept toks [] href title text hmem huri hhref htext

/-- Witness for C2 at a concrete document holding a base64 PNG image and an
embedded script element. -/
theorem sanitize_allowlist_spec_witness :
    nodesHaveImg "data:image/png;base64,iVBORw0KGgo=" "alt text"
      (sanitizedDoc
        [.image (some "data:image/png;base64,iVBORw0KGgo=") none "alt text",
         .htmlRaw [.elem "script" [] [.text "alert(1)"]]]) = true ∧
    nodesHaveTag "script"
      (sanitizedDoc
        [.image (some "data:image/png;base64,iVBORw0KGgo=") none "alt text",
         .htmlRaw [.elem "script" [] [.text "alert(1)"]]]) = false := by
  constructor
  · exact sanitize_allowlist_spec.2 _ "data:image/png;base64,iVBORw0KGgo="
      none "alt text" (List.mem_cons_self _ _) (by decide) (by decide)
      (by decide)
  · exact sanitize_allowlist_spec.1 _

/-- C5: the parse function is total and never throws to its caller: when the
internal parse raises, the result is the fixed inline error fragment with an
empty heading list, and the empty input (whose internal parse succeeds with
an empty token stream) yields empty HTML and an empty heading list. -/
theorem parseMarkdown_total_spec :
    (∀ e : String,
      parseMarkdown (Except.error e)
        = ⟨"<p class=\"text-destructive\">エラー: マークダウンの変換に失敗しました</p>", []⟩) ∧
    parseMarkdown (Except.ok []) = ⟨"", []⟩ :=
  ⟨fun _ => rfl, rfl⟩

/-!
Autosave (`useDebouncedCallback` and `useAutosave` in the hooks module).
The two hooks are embedded as a state machine over render events: a render at
time `t` with props `(value, isSaved)` first runs any timer that has come
due, then the `valueRef` effect, then the autosave effect (which re-runs
exactly when its dependencies `[value, isSaved, debouncedSave]` changed —
`debouncedSave` is referentially stable).  The debounced callback's
`setTimeout` is the `timer` field; firing it runs `saveAction`, which
persists `valueRef.current` (the live reference), not the value captured at
scheduling time.
-/

/-- The mutable state of a mounted `useAutosave(value, onSave, {delay,
isSaved})`: the previous render's effect dependencies (`none` before mount),
`valueRef.current`, the debounced callback's `isInitialMount` flag
(`skipInitialCall` is `true` at the `useAutosave` call site), the pending
debounce timer (absolute fire time and the argument captured at scheduling)
and the log of performed saves (fire time and persisted value). -/
structure AutosaveState where
  prevDeps : Option (String × Bool)
  valueRef : String
  isInitialMount : Bool
  timer : Option (Nat × String)
  saves : List (Nat × String)
  deriving Repr, DecidableEq

/-- The state of a freshly mounted hook, before its first render commits. -/
def initAutosave : AutosaveState :=
  ⟨none, "", true, none, []⟩

/-- Runs the pending `setTimeout` callback when its fire time has arrived:
`saveAction` persists `valueRef.current` at firing time. -/
def fireDue (t : Nat) (s : AutosaveState) : AutosaveState :=
  match s.timer with
  | some (ft, _) =>
    if ft ≤ t then { s with timer := none, saves := s.saves ++ [(ft, s.valueRef)] }
    else s
  | none => s

/-- One committed render of the hook at time `t` with props
`(value, isSaved)`: due timers fire first; the `valueRef` effect stores the
latest value; the autosave effect, when its deps changed (or on mount), calls
`debouncedSave value` if `isSaved` is false — whose first-ever invocation is
consumed by the `isInitialMount`/`skipInitialCall` check, and whose later
invocations clear and re-set the timer to `t + delay`. -/
def renderStep (delay t : Nat) (value : String) (isSaved : Bool)
    (s : AutosaveState) : AutosaveState :=
  let s := fireDue t s
  let s := { s with valueRef := value }
  let run := match s.prevDeps with
    | none => true
    | some (pv, ps) => pv != value || ps != isSaved
  let s :=
    if run then
      if isSaved then s
      else if s.isInitialMount then { s with isInitialMount := false }
      else { s with timer := some (t + delay, value) }
    else s
  { s with prevDeps := some (value, isSaved) }

/-- Runs a sequence of committed renders `(time, value, isSaved)`. -/
def runAutosave (delay : Nat) : List (Nat × String × Bool) → AutosaveState →
    AutosaveState
  | [], s => s
  | (t, v, sv) :: rest, s => runAutosave delay rest (renderStep delay t v sv s)

/-- C6: evaluation at the failing trace (the trace of the repo's own test
"should call onSave after delay when value changes and isSaved is false"):
mount at t=0 with ("value1", isSaved=true), then one content change at t=10
leaving ("value3", isSaved=false), then a quiet period far exceeding the
3000 ms delay.  The code performs no save at all — the first debounced
invocation is swallowed by the `skipInitialCall` check, which only the very
first invocation ever trips, not the mount — where the claim (and the test)
require a save of "value3" to fire after the quiet period. -/
theorem autosave_first_change_not_scheduled :
    (fireDue 100000 (runAutosave 3000
        [(0, "value1", true), (10, "value3", false)] initAutosave)).saves
      = [] ∧
    (fireDue 100000 (runAutosave 3000
        [(0, "value1", true), (10, "value3", false)] initAutosave)).timer
      = none := by
  decide

/-!
Scroll synchronizer (`EditorLayoutContent` in `src/components/PreviewPane.tsx`).
Scroll geometry is modeled over `ℚ`.  The refs of the component form a
`SyncState`; the two scroll handlers and the two timers (the 50 ms debounce
of `syncScroll`, shared by both handlers, and the 150 ms `syncTimeoutRef`
clearing the source-attribution flag) are step functions on it.
-/

/-- The `ScrollInfo` snapshot `{scrollTop, scrollHeight, clientHeight}`. -/
structure ScrollInfo where
  scrollTop : ℚ
  scrollHeight : ℚ
  clientHeight : ℚ
  deriving Repr, DecidableEq

inductive Pane where
  | editor
  | preview
  deriving Repr, DecidableEq

/-- The scroll commands the synchronizer can emit:
`setPreviewScrollToPercent` toward the preview, the editor store's
`setScrollToPercent` toward the editor. -/
inductive ScrollCommand where
  | scrollPreviewToPercent (p : ℚ)
  | scrollEditorToPercent (p : ℚ)
  deriving Repr, DecidableEq

/-- The component's mutable refs: the latest scroll snapshots, the two
source-attribution flags, the pending debounced `syncScroll` call (fire time
and captured source) and the pending attribution-clearing timeout (fire time
and which flag it clears). -/
structure SyncState where
  editorInfo : Option ScrollInfo
  previewInfo : Option ScrollInfo
  isEditorScrolling : Bool
  isPreviewScrolling : Bool
  pendingSync : Option (Nat × Pane)
  clearTimer : Option (Nat × Pane)
  deriving Repr, DecidableEq

/-- Embeds `syncScroll`: needs both snapshots; returns before any percentage
computation when either pane has no scrollable range; otherwise emits a
corrective command toward the opposite pane unless that pane is itself
marked as scrolling or the percents already agree within the 1% tolerance. -/
def syncScroll (s : SyncState) (source : Pane) : Option ScrollCommand :=
  match s.editorInfo, s.previewInfo with
  | some e, some p =>
    let editorMaxScroll := e.scrollHeight - e.clientHeight
    let previewMaxScroll := p.scrollHeight - p.clientHeight
    if editorMaxScroll ≤ 0 ∨ previewMaxScroll ≤ 0 then none
    else
      match source with
      | .editor =>
        if s.isPreviewScrolling then none
        else
          let editorPercent := e.scrollTop / editorMaxScroll
          let currentPreviewPercent := p.scrollTop / previewMaxScroll
          if |editorPercent - currentPreviewPercent| > 1 / 100 then
            some (.scrollPreviewToPercent editorPercent)
          else none
      | .preview =>
        if s.isEditorScrolling then none
        else
          let previewPercent := p.scrollTop / previewMaxScroll
          let currentEditorPercent := e.scrollTop / editorMaxScroll
          if |previewPercent - currentEditorPercent| > 1 / 100 then
            some (.scrollEditorToPercent previewPercent)
          else none
  | _, _ => none

/-- Embeds `handleEditorScroll` at time `t`: store the snapshot; if the
preview is the attributed source, return (the event is programmatic echo);
otherwise attribute the editor, schedule the debounced sync for `t + 50`
(replacing any pending one) and re-arm the 150 ms attribution-clearing
timeout. -/
def handleEditorScroll (t : Nat) (info : ScrollInfo) (s : SyncState) :
    SyncState :=
  let s := { s with editorInfo := some info }
  if s.isPreviewScrolling then s
  else
    { s with isEditorScrolling := true, isPreviewScrolling := false,
             pendingSync := some (t + 50, Pane.editor),
             clearTimer := some (t + 150, Pane.editor) }

/-- Embeds `handlePreviewScroll`, symmetric to `handleEditorScroll`. -/
def handlePreviewScroll (t : Nat) (info : ScrollInfo) (s : SyncState) :
    SyncState :=
  let s := { s with previewInfo := some info }
  if s.isEditorScrolling then s
  else
    { s with isPreviewScrolling := true, isEditorScrolling := false,
             pendingSync := some (t + 50, Pane.preview),
             clearTimer := some (t + 150, Pane.preview) }

/-- Firing the pending debounced `syncScroll` call: emits the command
computed from the state at firing time. -/
def firePendingSync (s : SyncState) : SyncState × Option ScrollCommand :=
  match s.pendingSync with
  | some (_, source) => ({ s with pendingSync := none }, syncScroll s source)
  | none => (s, none)

/-- Firing the attribution-clearing timeout: clears the named flag. -/
def fireClearTimer (s : SyncState) : SyncState :=
  match s.clearTimer with
  | some (_, Pane.editor) => { s with isEditorScrolling := false, clearTimer := none }
  | some (_, Pane.preview) => { s with isPreviewScrolling := false, clearTimer := none }
  | none => s

/-- C7: whenever either pane has zero scrollable range
(`scrollHeight ≤ clientHeight`), `syncScroll` produces no scroll command for
any source — it returns on the guard, before computing any percentage, so
the division by `scrollHeight - clientHeight` is never reached with a zero
or negative divisor. -/
theorem syncScroll_zero_range_noop (s : SyncState) (e p : ScrollInfo)
    (source : Pane) (he : s.editorInfo = some e) (hp : s.previewInfo = some p)
    (h : e.scrollHeight - e.clientHeight ≤ 0 ∨
         p.scrollHeight - p.clientHeight ≤ 0) :
    syncScroll s source = none := by
  simp only [syncScroll, he, hp]
  rw [if_pos h]

/-- Witness for C7: an overflow-free preview (scrollHeight = clientHeight)
silences the editor-sourced sync at a concrete state. -/
theorem syncScroll_zero_range_noop_witness :
    syncScroll
        ⟨some ⟨5, 300, 100⟩, some ⟨0, 100, 100⟩, false, false, none, none⟩
        Pane.editor
      = none :=
  syncScroll_zero_range_noop _ ⟨5, 300, 100⟩ ⟨0, 100, 100⟩ Pane.editor rfl rfl
    (Or.inr (by norm_num))

/-- C8: echo suppression never re-propagates.  While the editor is the
attributed source, a preview scroll event only records its snapshot — flags,
pending sync and timers are untouched, so the event emits and schedules
nothing (and symmetrically with the panes swapped); moreover a sync
attributed to a source pane can never emit a command toward that same pane;
and an unsuppressed editor event attributes the editor and arms the 150 ms
window whose expiry clears the attribution. -/
theorem echo_suppression_spec :
    (∀ (s : SyncState) (t : Nat) (info : ScrollInfo),
      s.isEditorScrolling = true →
      handlePreviewScroll t info s = { s with previewInfo := some info }) ∧
    (∀ (s : SyncState) (t : Nat) (info : ScrollInfo),
      s.isPreviewScrolling = true →
      handleEditorScroll t info s = { s with editorInfo := some info }) ∧
    (∀ (s : SyncState) (q : ℚ),
      syncScroll s Pane.editor ≠ some (.scrollEditorToPercent q)) ∧
    (∀ (s : SyncState) (q : ℚ),
      syncScroll s Pane.preview ≠ some (.scrollPreviewToPercent q)) ∧
    (∀ (s : SyncState) (t : Nat) (info : ScrollInfo),
      s.isPreviewScrolling = false →
      (handleEditorScroll t info s).isEditorScrolling = true ∧
      (handleEditorScroll t info s).clearTimer = some (t + 150, Pane.editor) ∧
      (fireClearTimer (handleEditorScroll t info s)).isEditorScrolling
        = false) := by
  refine ⟨?_, ?_, ?_, ?_, ?_⟩
  · intro s t info h
    simp [handlePreviewScroll, h]
  · intro s t info h
    simp [handleEditorScroll, h]
  · intro s q
    cases he : s.editorInfo with
    | none => simp [syncScroll, he]
    | some e =>
      cases hp : s.previewInfo with
      | none => simp [syncScroll, he, hp]
      | some p =>
        simp only [syncScroll, he, hp]
        split_ifs <;> simp
  · intro s q
    cases he : s.editorInfo with
    | none => simp [syncScroll, he]
    | some e =>
      cases hp : s.previewInfo with
      | none => simp [syncScroll, he, hp]
      | some p =>
        simp only [syncScroll, he, hp]
        split_ifs <;> simp
  · intro s t info h
    simp [handleEditorScroll, fireClearTimer, h]

/-- Witness for C8 at a concrete state: with the editor attributed as
source, a preview event changes nothing but the stored preview snapshot, and
an unsuppressed editor event arms the attribution window. -/
theorem echo_suppression_spec_witness :
    handlePreviewScroll 10 ⟨0, 200, 100⟩
        ⟨some ⟨5, 300, 100⟩, none, true, false, none,
         some (150, Pane.editor)⟩
      = ⟨some ⟨5, 300, 100⟩, some ⟨0, 200, 100⟩, true, false, none,
         some (150, Pane.editor)⟩ ∧
    (fireClearTimer (handleEditorScroll 0 ⟨5, 300, 100⟩
        ⟨none, none, false, false, none, none⟩)).isEditorScrolling = false := by
  constructor
  · exact echo_suppression_spec.1 _ 10 _ rfl
  · exact (echo_suppression_spec.2.2.2.2 _ 0 _ rfl).2.2

end OpenMdEditor
